import Mathlib

/-! Model of the in-memory sliding-window rate limiter of lib/rate-limit and of
the chat POST route handler with its zod request validator.  Timestamps are
integers (milliseconds, as produced by Date.now); the limiter state is the
ordered list of recorded timestamps held by the RateLimiter instance. -/

/-- Window duration in milliseconds: 15 minutes. -/
def WINDOW_SIZE : Int := 15 * 60 * 1000

/-- Maximum number of admitted requests per window. -/
def MAX_REQUESTS : Nat := 100

/-- The mutable state of the RateLimiter class: its recorded timestamps in
insertion order. -/
abbrev Timestamps := List Int

/-- The pruning step inside isRateLimited: keep exactly the recorded
timestamps ts with now - ts < WINDOW_SIZE. -/
def pruneWindow (now : Int) (st : Timestamps) : Timestamps :=
  st.filter (fun ts => decide (now - ts < WINDOW_SIZE))

/-- RateLimiter.isRateLimited: prune the window, then either deny (true) and
leave the state pruned, or admit (false) and append now.  Returns the
decision together with the updated state. -/
def isRateLimited (st : Timestamps) (now : Int) : Bool × Timestamps :=
  let pruned := pruneWindow now st
  if MAX_REQUESTS ≤ pruned.length then
    (true, pruned)
  else
    (false, pruned ++ [now])

/-- A sequence of admission checks at the given times, threading the limiter
state; returns the list of decisions and the final state. -/
def runCalls : Timestamps → List Int → List Bool × Timestamps
  | st, [] => ([], st)
  | st, t :: rest =>
    let p := isRateLimited st t
    let q := runCalls p.2 rest
    (p.1 :: q.1, q.2)

lemma runCalls_nil (st : Timestamps) : runCalls st [] = ([], st) := rfl

lemma runCalls_cons (st : Timestamps) (t : Int) (rest : List Int) :
    runCalls st (t :: rest)
      = ((isRateLimited st t).1 :: (runCalls (isRateLimited st t).2 rest).1,
         (runCalls (isRateLimited st t).2 rest).2) := rfl

lemma isRateLimited_full {st : Timestamps} {now : Int}
    (h : MAX_REQUESTS ≤ (pruneWindow now st).length) :
    isRateLimited st now = (true, pruneWindow now st) := by
  unfold isRateLimited
  simp [h]

lemma isRateLimited_not_full {st : Timestamps} {now : Int}
    (h : (pruneWindow now st).length < MAX_REQUESTS) :
    isRateLimited st now = (false, pruneWindow now st ++ [now]) := by
  unfold isRateLimited
  rw [if_neg (by omega)]

lemma mem_pruneWindow {st : Timestamps} {now x : Int} :
    x ∈ pruneWindow now st ↔ x ∈ st ∧ now - x < WINDOW_SIZE := by
  unfold pruneWindow
  simp [List.mem_filter]

lemma pruneWindow_eq_self {now : Int} {st : Timestamps}
    (h : ∀ x ∈ st, now - x < WINDOW_SIZE) : pruneWindow now st = st := by
  unfold pruneWindow
  exact List.filter_eq_self.mpr (fun a ha => decide_eq_true (h a ha))

lemma pruneWindow_idem (now : Int) (st : Timestamps) :
    pruneWindow now (pruneWindow now st) = pruneWindow now st :=
  pruneWindow_eq_self (fun _ hx => (mem_pruneWindow.mp hx).2)

lemma pruneWindow_length_le (now : Int) (st : Timestamps) :
    (pruneWindow now st).length ≤ st.length :=
  List.length_filter_le _ _

/-- If all call times and all stored timestamps lie inside one window
interval of the form t0 ≤ x < t0 + WINDOW_SIZE, no pruning ever removes
anything, so the run admits calls exactly until the window holds
MAX_REQUESTS entries and denies all later calls. -/
lemma runCalls_in_window (t0 : Int) (times : List Int) :
    ∀ st : Timestamps,
      (∀ t ∈ times, t0 ≤ t ∧ t < t0 + WINDOW_SIZE) →
      (∀ x ∈ st, t0 ≤ x ∧ x < t0 + WINDOW_SIZE) →
      (runCalls st times).1
        = List.replicate (min times.length (MAX_REQUESTS - st.length)) false
          ++ List.replicate (times.length - (MAX_REQUESTS - st.length)) true
      ∧ (runCalls st times).2 = st ++ times.take (MAX_REQUESTS - st.length) := by
  induction times with
  | nil =>
    intro st _ _
    simp [runCalls_nil]
  | cons t rest ih =>
    intro st htimes hst
    have ht : t0 ≤ t ∧ t < t0 + WINDOW_SIZE := htimes t (List.mem_cons_self t rest)
    have hrest : ∀ s ∈ rest, t0 ≤ s ∧ s < t0 + WINDOW_SIZE :=
      fun s hs => htimes s (List.mem_cons_of_mem t hs)
    have hnp : pruneWindow t st = st :=
      pruneWindow_eq_self (fun x hx => by have := hst x hx; omega)
    by_cases hfull : MAX_REQUESTS ≤ st.length
    · have hstep : isRateLimited st t = (true, st) := by
        rw [isRateLimited_full (by rw [hnp]; exact hfull), hnp]
      obtain ⟨ih1, ih2⟩ := ih st hrest hst
      have hk : MAX_REQUESTS - st.length = 0 := Nat.sub_eq_zero_of_le hfull
      constructor
      · simp only [runCalls_cons, hstep, List.length_cons]
        rw [ih1, hk]
        simp [List.replicate_succ]
      · simp only [runCalls_cons, hstep]
        rw [ih2, hk]
        simp
    · have hlt : (pruneWindow t st).length < MAX_REQUESTS := by rw [hnp]; omega
      have hstep : isRateLimited st t = (false, st ++ [t]) := by
        rw [isRateLimited_not_full hlt, hnp]
      have hst2 : ∀ x ∈ st ++ [t], t0 ≤ x ∧ x < t0 + WINDOW_SIZE := by
        intro x hx
        rcases List.mem_append.mp hx with h | h
        · exact hst x h
        · have := List.mem_singleton.mp h
          subst this
          exact ht
      obtain ⟨ih1, ih2⟩ := ih (st ++ [t]) hrest hst2
      obtain ⟨k0, hk0⟩ : ∃ k0, MAX_REQUESTS - st.length = k0 + 1 :=
        ⟨MAX_REQUESTS - st.length - 1, by omega⟩
      have hk1 : MAX_REQUESTS - (st ++ [t]).length = k0 := by
        simp only [List.length_append, List.length_singleton]
        omega
      rw [hk1] at ih1 ih2
      constructor
      · simp only [runCalls_cons, hstep, List.length_cons]
        rw [ih1, hk0]
        have e1 : min (rest.length + 1) (k0 + 1) = min rest.length k0 + 1 := by omega
        have e2 : rest.length + 1 - (k0 + 1) = rest.length - k0 := by omega
        rw [e1, e2, List.replicate_succ, List.cons_append]
      · simp only [runCalls_cons, hstep]
        rw [ih2, hk0, List.take_succ_cons]
        simp

/-- Claim C1: admission is bounded inside one window.  For any sequence of
checks whose times all fall within one window duration, at most MAX_REQUESTS
checks are admitted (return false) and every later check in that window is
denied (returns true). -/
theorem bounded_admission (t0 : Int) (times : List Int)
    (h : ∀ t ∈ times, t0 ≤ t ∧ t < t0 + WINDOW_SIZE) :
    (runCalls [] times).1.count false ≤ MAX_REQUESTS
    ∧ (runCalls [] times).1
        = List.replicate (min times.length MAX_REQUESTS) false
          ++ List.replicate (times.length - MAX_REQUESTS) true := by
  have hres := (runCalls_in_window t0 times [] h (by simp)).1
  simp only [List.length_nil, Nat.sub_zero] at hres
  refine ⟨?_, hres⟩
  rw [hres]
  simp [List.count_append, List.count_replicate]

/-- Witness for Claim C1 at the concrete call times 0, 1, 2. -/
theorem bounded_admission_witness :
    (∀ t ∈ [(0 : Int), 1, 2], (0 : Int) ≤ t ∧ t < 0 + WINDOW_SIZE)
    ∧ ((runCalls [] [(0 : Int), 1, 2]).1.count false ≤ MAX_REQUESTS
       ∧ (runCalls [] [(0 : Int), 1, 2]).1
           = List.replicate (min ([(0 : Int), 1, 2]).length MAX_REQUESTS) false
             ++ List.replicate (([(0 : Int), 1, 2]).length - MAX_REQUESTS) true) :=
  ⟨by decide, bounded_admission 0 [0, 1, 2] (by decide)⟩

/-- Claim C2: non-mutation on denial.  Whenever the pruned count reaches
MAX_REQUESTS the check denies and leaves the state equal to the pruned window
(no timestamp is appended), and an immediately repeated check at the same
instant on the resulting state is denied again. -/
theorem denial_non_mutation (st : Timestamps) (now : Int)
    (h : MAX_REQUESTS ≤ (pruneWindow now st).length) :
    isRateLimited st now = (true, pruneWindow now st)
    ∧ isRateLimited (pruneWindow now st) now = (true, pruneWindow now st) := by
  refine ⟨isRateLimited_full h, ?_⟩
  have hidem := pruneWindow_idem now st
  have h2 : MAX_REQUESTS ≤ (pruneWindow now (pruneWindow now st)).length := by
    rw [hidem]; exact h
  rw [isRateLimited_full h2, hidem]

/-- Witness for Claim C2 on a window already holding 100 timestamps. -/
theorem denial_non_mutation_witness :
    MAX_REQUESTS ≤ (pruneWindow 0 (List.replicate 100 (0 : Int))).length
    ∧ (isRateLimited (List.replicate 100 (0 : Int)) 0
         = (true, pruneWindow 0 (List.replicate 100 (0 : Int)))
       ∧ isRateLimited (pruneWindow 0 (List.replicate 100 (0 : Int))) 0
           = (true, pruneWindow 0 (List.replicate 100 (0 : Int)))) :=
  ⟨by decide, denial_non_mutation (List.replicate 100 0) 0 (by decide)⟩

/-- Claim C3: window recovery.  One hundred checks at time t0 are all
admitted and fill the window with one hundred copies of t0; a further check
at t0 + WINDOW_SIZE + eps for any eps > 0 prunes every t0 entry and is
admitted. -/
theorem window_recovery (t0 eps : Int) (heps : 0 < eps) :
    (runCalls [] (List.replicate MAX_REQUESTS t0)).1
      = List.replicate MAX_REQUESTS false
    ∧ (runCalls [] (List.replicate MAX_REQUESTS t0)).2
      = List.replicate MAX_REQUESTS t0
    ∧ isRateLimited (List.replicate MAX_REQUESTS t0) (t0 + WINDOW_SIZE + eps)
      = (false, [t0 + WINDOW_SIZE + eps]) := by
  have hmem : ∀ t ∈ List.replicate MAX_REQUESTS t0, t0 ≤ t ∧ t < t0 + WINDOW_SIZE := by
    intro t htm
    have he := List.eq_of_mem_replicate htm
    have hw : (0 : Int) < WINDOW_SIZE := by decide
    omega
  obtain ⟨h1, h2⟩ := runCalls_in_window t0 (List.replicate MAX_REQUESTS t0) [] hmem (by simp)
  simp only [List.length_nil, Nat.sub_zero, List.length_replicate, Nat.min_self,
    Nat.sub_self, List.replicate_zero, List.append_nil, List.nil_append,
    List.take_replicate] at h1 h2
  refine ⟨h1, by simpa using h2, ?_⟩
  have hprune : pruneWindow (t0 + WINDOW_SIZE + eps) (List.replicate MAX_REQUESTS t0) = [] := by
    unfold pruneWindow
    rw [List.filter_eq_nil_iff]
    intro a ha
    have he := List.eq_of_mem_replicate ha
    simp only [decide_eq_true_eq]
    omega
  rw [isRateLimited_not_full (by rw [hprune]; simp [MAX_REQUESTS]), hprune]
  simp

/-- Witness for Claim C3 at t0 = 0 and eps = 1. -/
theorem window_recovery_witness :
    (0 : Int) < 1
    ∧ ((runCalls [] (List.replicate MAX_REQUESTS (0 : Int))).1
         = List.replicate MAX_REQUESTS false
       ∧ (runCalls [] (List.replicate MAX_REQUESTS (0 : Int))).2
         = List.replicate MAX_REQUESTS (0 : Int)
       ∧ isRateLimited (List.replicate MAX_REQUESTS (0 : Int)) (0 + WINDOW_SIZE + 1)
         = (false, [0 + WINDOW_SIZE + 1])) :=
  ⟨by decide, window_recovery 0 1 (by decide)⟩

set_option maxRecDepth 10000 in
/-- Claim C8: a burst of 1000 checks sharing one timestamp (the sequential
interleaving of 1000 simultaneous calls, each check being one atomic step)
admits exactly 100 and denies exactly 900, in that order. -/
theorem concurrent_burst (t : Int) :
    (runCalls [] (List.replicate 1000 t)).1.count false = 100
    ∧ (runCalls [] (List.replicate 1000 t)).1.count true = 900
    ∧ (runCalls [] (List.replicate 1000 t)).1
        = List.replicate 100 false ++ List.replicate 900 true := by
  have hmem : ∀ s ∈ List.replicate 1000 t, t ≤ s ∧ s < t + WINDOW_SIZE := by
    intro s hs
    have he := List.eq_of_mem_replicate hs
    have hw : (0 : Int) < WINDOW_SIZE := by decide
    omega
  have h1 := (runCalls_in_window t (List.replicate 1000 t) [] hmem (by simp)).1
  simp only [List.length_nil, Nat.sub_zero, List.length_replicate] at h1
  have hmin : min 1000 MAX_REQUESTS = 100 := by decide
  have hsub : 1000 - MAX_REQUESTS = 900 := by decide
  rw [hmin, hsub] at h1
  refine ⟨?_, ?_, h1⟩ <;> rw [h1] <;> decide

lemma length_step {st : Timestamps} {now : Int} (h : st.length ≤ MAX_REQUESTS) :
    ((isRateLimited st now).2).length ≤ MAX_REQUESTS := by
  have hp := pruneWindow_length_le now st
  by_cases hc : MAX_REQUESTS ≤ (pruneWindow now st).length
  · rw [isRateLimited_full hc]
    show (pruneWindow now st).length ≤ MAX_REQUESTS
    omega
  · push_neg at hc
    rw [isRateLimited_not_full hc]
    show (pruneWindow now st ++ [now]).length ≤ MAX_REQUESTS
    rw [List.length_append, List.length_singleton]
    omega

lemma length_run : ∀ (times : List Int) (st : Timestamps),
    st.length ≤ MAX_REQUESTS → ((runCalls st times).2).length ≤ MAX_REQUESTS := by
  intro times
  induction times with
  | nil =>
    intro st h
    simpa [runCalls_nil] using h
  | cons t rest ih =>
    intro st h
    have := ih (isRateLimited st t).2 (length_step h)
    simpa [runCalls_cons] using this

/-- Claim C7: bounded state growth.  Pruning can only shrink the stored
sequence; the check appends only when the pruned length is strictly below
MAX_REQUESTS; one check keeps a bounded state bounded; and every run from the
fresh limiter ends (hence passes through every intermediate state, each being
the final state of a prefix run) with at most MAX_REQUESTS stored entries. -/
theorem bounded_state_growth (st : Timestamps) (now : Int) (times : List Int)
    (h : st.length ≤ MAX_REQUESTS) :
    (pruneWindow now st).length ≤ st.length
    ∧ (MAX_REQUESTS ≤ (pruneWindow now st).length →
        (isRateLimited st now).2 = pruneWindow now st)
    ∧ ((pruneWindow now st).length < MAX_REQUESTS →
        (isRateLimited st now).2 = pruneWindow now st ++ [now])
    ∧ ((isRateLimited st now).2).length ≤ MAX_REQUESTS
    ∧ ((runCalls [] times).2).length ≤ MAX_REQUESTS := by
  refine ⟨pruneWindow_length_le now st, ?_, ?_, length_step h, length_run times [] (by simp)⟩
  · intro hc
    rw [isRateLimited_full hc]
  · intro hc
    rw [isRateLimited_not_full hc]

/-- Witness for Claim C7 on the stored window [0, 1] checked at time 5. -/
theorem bounded_state_growth_witness :
    ([(0 : Int), 1] : Timestamps).length ≤ MAX_REQUESTS
    ∧ ((pruneWindow 5 [(0 : Int), 1]).length ≤ ([(0 : Int), 1] : Timestamps).length
       ∧ (MAX_REQUESTS ≤ (pruneWindow 5 [(0 : Int), 1]).length →
           (isRateLimited [(0 : Int), 1] 5).2 = pruneWindow 5 [(0 : Int), 1])
       ∧ ((pruneWindow 5 [(0 : Int), 1]).length < MAX_REQUESTS →
           (isRateLimited [(0 : Int), 1] 5).2 = pruneWindow 5 [(0 : Int), 1] ++ [5])
       ∧ ((isRateLimited [(0 : Int), 1] 5).2).length ≤ MAX_REQUESTS
       ∧ ((runCalls [] [(3 : Int), 4]).2).length ≤ MAX_REQUESTS) :=
  ⟨by decide, bounded_state_growth [0, 1] 5 [3, 4] (by decide)⟩

/-- Pruning as Claim C4 words it: remove exactly the timestamps that are
older than now - WINDOW_SIZE, that is keep every ts with
now - WINDOW_SIZE ≤ ts.  Stated from the claim text, to compare with the
pruning the code performs. -/
def pruneSpecClaim (now : Int) (st : Timestamps) : Timestamps :=
  st.filter (fun ts => decide (now - WINDOW_SIZE ≤ ts))

/-- Claim C4 as stated is false at the window boundary: at now = WINDOW_SIZE
on the stored window [0], the code removes the timestamp 0 although 0 is not
older than now - WINDOW_SIZE = 0, so pruning does not remove exactly the
timestamps with ts < now - WINDOW_SIZE. -/
theorem pruning_boundary_cex :
    pruneWindow WINDOW_SIZE [(0 : Int)] = []
    ∧ pruneSpecClaim WINDOW_SIZE [(0 : Int)] = [(0 : Int)]
    ∧ pruneWindow WINDOW_SIZE [(0 : Int)] ≠ pruneSpecClaim WINDOW_SIZE [(0 : Int)] := by
  decide

/-- The window invariant of Claim C4, with the half-open interval the code
actually maintains: every stored timestamp x satisfies
now - WINDOW_SIZE < x ≤ now, and the stored sequence is non-decreasing in
insertion order. -/
def WindowInv (st : Timestamps) (now : Int) : Prop :=
  (∀ x ∈ st, now - WINDOW_SIZE < x ∧ x ≤ now)
  ∧ List.Pairwise (fun a b : Int => a ≤ b) st

lemma windowInv_step {st : Timestamps} {t0 now : Int}
    (h : WindowInv st t0) (hle : t0 ≤ now) :
    WindowInv (isRateLimited st now).2 now := by
  obtain ⟨hmem, hpw⟩ := h
  have hmemP : ∀ x ∈ pruneWindow now st, now - WINDOW_SIZE < x ∧ x ≤ now := by
    intro x hx
    obtain ⟨hxs, hlt⟩ := mem_pruneWindow.mp hx
    have := hmem x hxs
    omega
  have hpwP : List.Pairwise (fun a b : Int => a ≤ b) (pruneWindow now st) :=
    hpw.sublist (List.filter_sublist st)
  by_cases hc : MAX_REQUESTS ≤ (pruneWindow now st).length
  · rw [isRateLimited_full hc]
    exact ⟨hmemP, hpwP⟩
  · push_neg at hc
    rw [isRateLimited_not_full hc]
    constructor
    · intro x hx
      rcases List.mem_append.mp hx with hm | hm
      · exact hmemP x hm
      · have hx2 := List.mem_singleton.mp hm
        have hw : (0 : Int) < WINDOW_SIZE := by decide
        omega
    · rw [List.pairwise_append]
      refine ⟨hpwP, List.pairwise_singleton _ _, ?_⟩
      intro a ha b hb
      have hb2 := List.mem_singleton.mp hb
      have := (hmemP a ha).2
      omega

/-- The time of the last check in a run, given the time of the check before
the run. -/
def lastTime : Int → List Int → Int
  | t0, [] => t0
  | _, t :: rest => lastTime t rest

lemma windowInv_run : ∀ (times : List Int) (st : Timestamps) (t0 : Int),
    List.Chain (fun a b : Int => a ≤ b) t0 times → WindowInv st t0 →
    WindowInv (runCalls st times).2 (lastTime t0 times) := by
  intro times
  induction times with
  | nil =>
    intro st t0 _ h
    simpa [runCalls_nil, lastTime] using h
  | cons t rest ih =>
    intro st t0 hch h
    rw [List.chain_cons] at hch
    have h1 := windowInv_step h hch.1
    have h2 := ih (isRateLimited st t).2 t hch.2 h1
    simpa [runCalls_cons, lastTime] using h2

/-- Claim C4 amended: pruning keeps exactly the stored timestamps with
now - WINDOW_SIZE < ts, so it also removes a timestamp lying exactly at
now - WINDOW_SIZE; consequently, along any run from the fresh limiter with
non-decreasing call times, after every check the stored timestamps lie in
the half-open interval (now - WINDOW_SIZE, now] and are monotonically
non-decreasing in insertion order. -/
theorem pruning_boundary_amended :
    (∀ (now : Int) (st : Timestamps),
        pruneWindow now st = st.filter (fun ts => decide (now - WINDOW_SIZE < ts)))
    ∧ ∀ (t0 : Int) (times : List Int),
        List.Chain (fun a b : Int => a ≤ b) t0 times →
        WindowInv (runCalls [] (t0 :: times)).2 (lastTime t0 times) := by
  constructor
  · intro now st
    unfold pruneWindow
    apply List.filter_congr
    intro a _
    rw [decide_eq_decide]
    omega
  · intro t0 times hch
    have h0 : WindowInv [] t0 :=
      ⟨fun x hx => absurd hx (List.not_mem_nil x), List.Pairwise.nil⟩
    have hrun := windowInv_run (t0 :: times) [] t0
      (List.chain_cons.mpr ⟨le_refl t0, hch⟩) h0
    simpa [lastTime] using hrun

/-- Witness for the amended Claim C4 on the call times 0, 5, 1000000. -/
theorem pruning_boundary_amended_witness :
    List.Chain (fun a b : Int => a ≤ b) 0 [5, 1000000]
    ∧ WindowInv (runCalls [] ((0 : Int) :: [5, 1000000])).2
        (lastTime 0 [5, 1000000]) :=
  ⟨List.Chain.cons (by norm_num) (List.Chain.cons (by norm_num) List.Chain.nil),
   pruning_boundary_amended.2 0 [5, 1000000]
     (List.Chain.cons (by norm_num) (List.Chain.cons (by norm_num) List.Chain.nil))⟩

/-- RateLimiter.isRateLimited embedded in the exception monad in which the
route code runs: the body contains no throw, so every branch returns ok. -/
def isRateLimitedE (st : Timestamps) (now : Int) : Except String (Bool × Timestamps) :=
  let pruned := pruneWindow now st
  if MAX_REQUESTS ≤ pruned.length then
    Except.ok (true, pruned)
  else
    Except.ok (false, pruned ++ [now])

/-- checkRateLimit: call isRateLimited on the shared limiter and throw an
Error with message Too many requests when it returns true.  The pair carries
the limiter state the call leaves behind. -/
def checkRateLimit (st : Timestamps) (now : Int) : Except String Unit × Timestamps :=
  match isRateLimitedE st now with
  | Except.error e => (Except.error e, st)
  | Except.ok (limited, st2) =>
      if limited then (Except.error "Too many requests", st2)
      else (Except.ok (), st2)

/-- The rateLimiter middleware wrapper: call checkRateLimit and rethrow any
error as a fresh Error with message Too many requests; resolve otherwise. -/
def rateLimiter (st : Timestamps) (now : Int) : Except String Unit × Timestamps :=
  let r := checkRateLimit st now
  (match r.1 with
   | Except.ok _ => Except.ok ()
   | Except.error _ => Except.error "Too many requests",
   r.2)

/-- The speedLimiter middleware: a pass-through that always resolves. -/
def speedLimiter : Except String Unit := Except.ok ()

lemma isRateLimitedE_eq (st : Timestamps) (now : Int) :
    isRateLimitedE st now = Except.ok (isRateLimited st now) := by
  unfold isRateLimitedE isRateLimited
  by_cases h : MAX_REQUESTS ≤ (pruneWindow now st).length <;> simp [h]

lemma checkRateLimit_eq (st : Timestamps) (now : Int) :
    checkRateLimit st now
      = (if (isRateLimited st now).1 then Except.error "Too many requests"
         else Except.ok (),
         (isRateLimited st now).2) := by
  unfold checkRateLimit
  rw [isRateLimitedE_eq]
  rcases isRateLimited st now with ⟨b, s⟩
  cases b <;> simp

lemma rateLimiter_eq (st : Timestamps) (now : Int) :
    rateLimiter st now
      = (if (isRateLimited st now).1 then Except.error "Too many requests"
         else Except.ok (),
         (isRateLimited st now).2) := by
  unfold rateLimiter
  rw [checkRateLimit_eq]
  cases hb : (isRateLimited st now).1 <;> simp

/-- Claim C5: error propagation split.  The decision core isRateLimited
never throws (its exception-monad embedding returns ok on every state and
time), while checkRateLimit throws an Error with message Too many requests
exactly when the decision is true and returns normally exactly when it is
false, in both cases leaving the state the decision call produced. -/
theorem error_propagation_split (st : Timestamps) (now : Int) :
    isRateLimitedE st now = Except.ok (isRateLimited st now)
    ∧ ((checkRateLimit st now).1 = Except.error "Too many requests"
        ↔ (isRateLimited st now).1 = true)
    ∧ ((checkRateLimit st now).1 = Except.ok ()
        ↔ (isRateLimited st now).1 = false)
    ∧ (checkRateLimit st now).2 = (isRateLimited st now).2 := by
  refine ⟨isRateLimitedE_eq st now, ?_, ?_, ?_⟩ <;>
    rw [checkRateLimit_eq] <;> cases hb : (isRateLimited st now).1 <;> simp

/-- A JSON value, as produced by req.json() on the request body. -/
inductive Json where
  | str (s : String)
  | num (n : Int)
  | bool (b : Bool)
  | null
  | arr (elems : List Json)
  | obj (fields : List (String × Json))

/-- One validated chat message, the typed output of the zod schema. -/
structure ChatMessage where
  role : String
  content : String
deriving DecidableEq

/-- The zod role field: z.enum of user, assistant and system. -/
def parseRole (j : Json) : Except String String :=
  match j with
  | Json.str s =>
      if s = "user" ∨ s = "assistant" ∨ s = "system" then Except.ok s
      else Except.error "invalid_enum_value"
  | _ => Except.error "invalid_type"

/-- The zod content field: z.string with min 1 and max 4000. -/
def parseContent (j : Json) : Except String String :=
  match j with
  | Json.str s =>
      if s.length < 1 then Except.error "too_small"
      else if 4000 < s.length then Except.error "too_big"
      else Except.ok s
  | _ => Except.error "invalid_type"

/-- One element of the messages array: an object with a role and a content
field, both validated. -/
def parseChatMessage (j : Json) : Except String ChatMessage :=
  match j with
  | Json.obj fields =>
      match fields.lookup "role", fields.lookup "content" with
      | some rj, some cj =>
          match parseRole rj, parseContent cj with
          | Except.ok r, Except.ok c => Except.ok ⟨r, c⟩
          | Except.error e, _ => Except.error e
          | _, Except.error e => Except.error e
      | _, _ => Except.error "required"
  | _ => Except.error "invalid_type"

/-- z.array over the message elements: every element must validate. -/
def parseChatMessages : List Json → Except String (List ChatMessage)
  | [] => Except.ok []
  | x :: rest =>
      match parseChatMessage x, parseChatMessages rest with
      | Except.ok m, Except.ok ms => Except.ok (m :: ms)
      | Except.error e, _ => Except.error e
      | _, Except.error e => Except.error e

/-- messageSchema.parse: the body must be an object whose messages field is
an array of valid message elements. -/
def messageSchemaParse (j : Json) : Except String (List ChatMessage) :=
  match j with
  | Json.obj fields =>
      match fields.lookup "messages" with
      | some (Json.arr xs) => parseChatMessages xs
      | some _ => Except.error "invalid_type"
      | none => Except.error "required"
  | _ => Except.error "invalid_type"

/-- The body of a response the POST handler builds: either a JSON object with
an error field (withDetails records whether a details field accompanies it)
or the upstream data forwarded from the model provider. -/
inductive RespBody where
  | errObj (error : String) (withDetails : Bool)
  | upstreamData (messages : List ChatMessage)

/-- A response of the POST handler: its HTTP status code and its body. -/
structure PostResponse where
  status : Nat
  body : RespBody

/-- The POST route handler.  It runs the rateLimiter middleware (speedLimiter
always resolves), reads the request body (none models a body that is not
valid JSON), validates it against messageSchema, and on success performs the
upstream fetch.  The result carries the response, whether the upstream call
was invoked, and the final limiter state.  Caught errors map to 429 when the
message is Too many requests, to 400 with error Invalid request format plus
details on zod validation failure, and to 500 otherwise. -/
def POST (st : Timestamps) (now : Int) (body : Option Json) :
    PostResponse × Bool × Timestamps :=
  let r := rateLimiter st now
  match r.1 with
  | Except.error msg =>
      (if msg = "Too many requests" then
         ⟨429, RespBody.errObj "Rate limit exceeded. Please try again later." false⟩
       else
         ⟨500, RespBody.errObj "An error occurred while processing your request" false⟩,
       false, r.2)
  | Except.ok _ =>
      match body with
      | none =>
          (⟨500, RespBody.errObj "An error occurred while processing your request" false⟩,
           false, r.2)
      | some j =>
          match messageSchemaParse j with
          | Except.error _ =>
              (⟨400, RespBody.errObj "Invalid request format" true⟩, false, r.2)
          | Except.ok msgs =>
              (⟨200, RespBody.upstreamData msgs⟩, true, r.2)

/-- Claim C6: denial signaling.  On every request whose admission check
denies, POST returns status 429 with body error
Rate limit exceeded. Please try again later. and no details field, the
upstream call is never invoked, and the state is the one the check left. -/
theorem denial_signaling (st : Timestamps) (now : Int) (body : Option Json)
    (h : (isRateLimited st now).1 = true) :
    (POST st now body).1
      = ⟨429, RespBody.errObj "Rate limit exceeded. Please try again later." false⟩
    ∧ (POST st now body).2.1 = false
    ∧ (POST st now body).2.2 = (isRateLimited st now).2 := by
  unfold POST
  rw [rateLimiter_eq, h]
  simp

/-- Witness for Claim C6 on a full window of 100 timestamps at time 0. -/
theorem denial_signaling_witness :
    (isRateLimited (List.replicate 100 (0 : Int)) 0).1 = true
    ∧ ((POST (List.replicate 100 (0 : Int)) 0 none).1
         = ⟨429, RespBody.errObj "Rate limit exceeded. Please try again later." false⟩
       ∧ (POST (List.replicate 100 (0 : Int)) 0 none).2.1 = false
       ∧ (POST (List.replicate 100 (0 : Int)) 0 none).2.2
           = (isRateLimited (List.replicate 100 (0 : Int)) 0).2) :=
  ⟨by decide, denial_signaling (List.replicate 100 0) 0 none (by decide)⟩

lemma parseRole_ok {j : Json} {r : String} (h : parseRole j = Except.ok r) :
    j = Json.str r ∧ (r = "user" ∨ r = "assistant" ∨ r = "system") := by
  cases j with
  | str s =>
    simp only [parseRole] at h
    split_ifs at h with h1
    injection h with hh
    subst hh
    exact ⟨rfl, h1⟩
  | num n => simp [parseRole] at h
  | bool b => simp [parseRole] at h
  | null => simp [parseRole] at h
  | arr xs => simp [parseRole] at h
  | obj fs => simp [parseRole] at h

lemma parseContent_ok {j : Json} {c : String} (h : parseContent j = Except.ok c) :
    j = Json.str c ∧ 1 ≤ c.length ∧ c.length ≤ 4000 := by
  cases j with
  | str s =>
    simp only [parseContent] at h
    split_ifs at h with h1 h2
    injection h with hh
    subst hh
    exact ⟨rfl, by omega, by omega⟩
  | num n => simp [parseContent] at h
  | bool b => simp [parseContent] at h
  | null => simp [parseContent] at h
  | arr xs => simp [parseContent] at h
  | obj fs => simp [parseContent] at h

lemma parseChatMessage_ok {x : Json} {m : ChatMessage}
    (h : parseChatMessage x = Except.ok m) :
    ∃ xf, x = Json.obj xf
      ∧ xf.lookup "role" = some (Json.str m.role)
      ∧ xf.lookup "content" = some (Json.str m.content)
      ∧ (m.role = "user" ∨ m.role = "assistant" ∨ m.role = "system")
      ∧ 1 ≤ m.content.length ∧ m.content.length ≤ 4000 := by
  cases x with
  | obj xf =>
    simp only [parseChatMessage] at h
    split at h
    · split at h
      · rename_i rj cj hr hc ex1 ex2 r c hpr hpc
        obtain ⟨hrj, hrset⟩ := parseRole_ok hpr
        obtain ⟨hcj, hcmin, hcmax⟩ := parseContent_ok hpc
        subst hrj
        subst hcj
        injection h with hh
        subst hh
        exact ⟨xf, rfl, hr, hc, hrset, hcmin, hcmax⟩
      · simp at h
      · simp at h
    · simp at h
  | str s => simp [parseChatMessage] at h
  | num n => simp [parseChatMessage] at h
  | bool b => simp [parseChatMessage] at h
  | null => simp [parseChatMessage] at h
  | arr xs => simp [parseChatMessage] at h

lemma parseChatMessages_ok : ∀ {xs : List Json} {ms : List ChatMessage},
    parseChatMessages xs = Except.ok ms →
    ms.length = xs.length
    ∧ (∀ m ∈ ms, ∃ x ∈ xs, parseChatMessage x = Except.ok m)
    ∧ (∀ x ∈ xs, ∃ m, parseChatMessage x = Except.ok m) := by
  intro xs
  induction xs with
  | nil =>
    intro ms h
    unfold parseChatMessages at h
    simp only [Except.ok.injEq] at h
    subst h
    simp
  | cons x rest ih =>
    intro ms h
    unfold parseChatMessages at h
    cases hm : parseChatMessage x with
    | error e => rw [hm] at h; simp at h
    | ok m0 =>
      cases hrest : parseChatMessages rest with
      | error e => rw [hm, hrest] at h; simp at h
      | ok ms0 =>
        rw [hm, hrest] at h
        simp only [Except.ok.injEq] at h
        subst h
        obtain ⟨ihlen, ih1, ih2⟩ := ih hrest
        refine ⟨by simp [ihlen], ?_, ?_⟩
        · intro m hm2
          rcases List.mem_cons.mp hm2 with rfl | hm3
          · exact ⟨x, List.mem_cons_self x rest, hm⟩
          · obtain ⟨x2, hx2, hpx2⟩ := ih1 m hm3
            exact ⟨x2, List.mem_cons_of_mem x hx2, hpx2⟩
        · intro x2 hx2
          rcases List.mem_cons.mp hx2 with rfl | hx3
          · exact ⟨m0, hm⟩
          · exact ih2 x2 hx3

lemma parseChatMessages_error_of_mem {xs : List Json} {x : Json}
    (hx : x ∈ xs) (hbad : ∀ m, parseChatMessage x ≠ Except.ok m) :
    ∃ e, parseChatMessages xs = Except.error e := by
  cases hres : parseChatMessages xs with
  | error e => exact ⟨e, rfl⟩
  | ok ms =>
    obtain ⟨m, hm⟩ := (parseChatMessages_ok hres).2.2 x hx
    exact absurd hm (hbad m)

lemma messageSchemaParse_ok {j : Json} {ms : List ChatMessage}
    (h : messageSchemaParse j = Except.ok ms) :
    ∃ fields xs, j = Json.obj fields
      ∧ fields.lookup "messages" = some (Json.arr xs)
      ∧ parseChatMessages xs = Except.ok ms := by
  cases j with
  | obj fields =>
    simp only [messageSchemaParse] at h
    cases hl : fields.lookup "messages" with
    | none => rw [hl] at h; simp at h
    | some v =>
      rw [hl] at h
      cases v with
      | arr xs => exact ⟨fields, xs, rfl, hl, h⟩
      | str s => simp at h
      | num n => simp at h
      | bool b => simp at h
      | null => simp at h
      | obj fs => simp at h
  | str s => simp [messageSchemaParse] at h
  | num n => simp [messageSchemaParse] at h
  | bool b => simp [messageSchemaParse] at h
  | null => simp [messageSchemaParse] at h
  | arr xs => simp [messageSchemaParse] at h

lemma messageSchemaParse_obj {fields : List (String × Json)} {xs : List Json}
    (hl : fields.lookup "messages" = some (Json.arr xs)) :
    messageSchemaParse (Json.obj fields) = parseChatMessages xs := by
  simp only [messageSchemaParse]
  rw [hl]

/-- On an admitted request whose body fails validation, POST returns 400
with error Invalid request format plus details, and no upstream call. -/
lemma POST_invalid {st : Timestamps} {now : Int} {j : Json} {e : String}
    (hfree : (isRateLimited st now).1 = false)
    (he : messageSchemaParse j = Except.error e) :
    (POST st now (some j)).1 = ⟨400, RespBody.errObj "Invalid request format" true⟩
    ∧ (POST st now (some j)).2.1 = false
    ∧ (POST st now (some j)).2.2 = (isRateLimited st now).2 := by
  unfold POST
  rw [rateLimiter_eq, hfree]
  simp [he]

/-- The per-element constraint exactly as Claim C9 words it: the element has
a role drawn from the enumerated set and a content string of at most 4000
characters.  Stated from the claim text, to compare with what the validator
enforces. -/
def claimConstraint (x : Json) : Bool :=
  match x with
  | Json.obj f =>
      match f.lookup "role", f.lookup "content" with
      | some (Json.str r), some (Json.str c) =>
          decide (r = "user" ∨ r = "assistant" ∨ r = "system")
            && decide (c.length ≤ 4000)
      | _, _ => false
  | _ => false

lemma parseChatMessage_claimConstraint {x : Json} {m : ChatMessage}
    (h : parseChatMessage x = Except.ok m) : claimConstraint x = true := by
  obtain ⟨xf, rfl, hr, hc, hrset, hcmin, hcmax⟩ := parseChatMessage_ok h
  simp only [claimConstraint, hr, hc, Bool.and_eq_true, decide_eq_true_eq]
  exact ⟨hrset, hcmax⟩

/-- Claim C9: request-body validation contract.  A body the validator
accepts is an object holding a messages array whose elements all carry a
role from the enumerated set user, assistant, system and a content string of
at most 4000 characters; an element of the messages array violating those
constraints makes validation fail; and whenever validation fails on an
admitted request, POST returns status 400 with error Invalid request format
and the upstream call is not invoked. -/
theorem validation_contract (st : Timestamps) (now : Int) (j : Json)
    (hfree : (isRateLimited st now).1 = false) :
    (∀ ms, messageSchemaParse j = Except.ok ms →
       (∃ fields xs, j = Json.obj fields
          ∧ fields.lookup "messages" = some (Json.arr xs)
          ∧ ms.length = xs.length)
       ∧ ∀ m ∈ ms, (m.role = "user" ∨ m.role = "assistant" ∨ m.role = "system")
           ∧ m.content.length ≤ 4000)
    ∧ (∀ fields xs x, j = Json.obj fields →
        fields.lookup "messages" = some (Json.arr xs) →
        x ∈ xs → claimConstraint x = false →
        ∃ e, messageSchemaParse j = Except.error e)
    ∧ (∀ e, messageSchemaParse j = Except.error e →
        (POST st now (some j)).1 = ⟨400, RespBody.errObj "Invalid request format" true⟩
        ∧ (POST st now (some j)).2.1 = false) := by
  refine ⟨?_, ?_, ?_⟩
  · intro ms h
    obtain ⟨fields, xs, rfl, hl, hp⟩ := messageSchemaParse_ok h
    obtain ⟨hlen, h1, _⟩ := parseChatMessages_ok hp
    refine ⟨⟨fields, xs, rfl, hl, hlen⟩, ?_⟩
    intro m hm
    obtain ⟨x, _, hpx⟩ := h1 m hm
    obtain ⟨xf, _, _, _, hrset, _, hcmax⟩ := parseChatMessage_ok hpx
    exact ⟨hrset, hcmax⟩
  · intro fields xs x hj hl hx hbad
    subst hj
    have hbadp : ∀ m, parseChatMessage x ≠ Except.ok m := by
      intro m hm
      have hcc := parseChatMessage_claimConstraint hm
      rw [hbad] at hcc
      exact Bool.false_ne_true hcc
    obtain ⟨e, he⟩ := parseChatMessages_error_of_mem hx hbadp
    exact ⟨e, by rw [messageSchemaParse_obj hl]; exact he⟩
  · intro e he
    have hp := POST_invalid hfree he
    exact ⟨hp.1, hp.2.1⟩

/-- Witness for Claim C9 on the fresh limiter and the body null. -/
theorem validation_contract_witness :
    (isRateLimited [] 0).1 = false
    ∧ ((∀ ms, messageSchemaParse Json.null = Except.ok ms →
         (∃ fields xs, Json.null = Json.obj fields
            ∧ fields.lookup "messages" = some (Json.arr xs)
            ∧ ms.length = xs.length)
         ∧ ∀ m ∈ ms, (m.role = "user" ∨ m.role = "assistant" ∨ m.role = "system")
             ∧ m.content.length ≤ 4000)
      ∧ (∀ fields xs x, Json.null = Json.obj fields →
          fields.lookup "messages" = some (Json.arr xs) →
          x ∈ xs → claimConstraint x = false →
          ∃ e, messageSchemaParse Json.null = Except.error e)
      ∧ (∀ e, messageSchemaParse Json.null = Except.error e →
          (POST [] 0 (some Json.null)).1
            = ⟨400, RespBody.errObj "Invalid request format" true⟩
          ∧ (POST [] 0 (some Json.null)).2.1 = false)) :=
  ⟨by decide, validation_contract [] 0 Json.null (by decide)⟩

/-- Claim C10: the validator additionally enforces a minimum content length
of one character.  A message element whose content is the empty string never
validates, makes the whole body fail validation, and on an admitted request
POST then returns status 400 with error Invalid request format, although the
empty string satisfies the 4000-character maximum. -/
theorem empty_content_rejected (st : Timestamps) (now : Int)
    (fields : List (String × Json)) (xs : List Json) (x : Json)
    (xf : List (String × Json))
    (hfree : (isRateLimited st now).1 = false)
    (hl : fields.lookup "messages" = some (Json.arr xs))
    (hx : x ∈ xs) (hxo : x = Json.obj xf)
    (hce : xf.lookup "content" = some (Json.str "")) :
    parseContent (Json.str "") = Except.error "too_small"
    ∧ (∀ m, parseChatMessage x ≠ Except.ok m)
    ∧ (∃ e, messageSchemaParse (Json.obj fields) = Except.error e)
    ∧ (POST st now (some (Json.obj fields))).1
        = ⟨400, RespBody.errObj "Invalid request format" true⟩ := by
  have hbadp : ∀ m, parseChatMessage x ≠ Except.ok m := by
    intro m hm
    obtain ⟨xf2, hxo2, hr2, hc2, _, hcmin, _⟩ := parseChatMessage_ok hm
    rw [hxo] at hxo2
    injection hxo2 with hff
    subst hff
    rw [hce] at hc2
    injection hc2 with hcc
    injection hcc with hcs
    rw [← hcs] at hcmin
    simp at hcmin
  obtain ⟨e, he0⟩ := parseChatMessages_error_of_mem hx hbadp
  have he : messageSchemaParse (Json.obj fields) = Except.error e := by
    rw [messageSchemaParse_obj hl]
    exact he0
  exact ⟨by simp [parseContent], hbadp, ⟨e, he⟩, (POST_invalid hfree he).1⟩

/-- Witness for Claim C10 on a one-message body whose content is empty. -/
theorem empty_content_rejected_witness :
    (isRateLimited [] 0).1 = false
    ∧ (List.lookup "messages"
        [("messages", Json.arr [Json.obj [("role", Json.str "user"), ("content", Json.str "")]])]
        = some (Json.arr [Json.obj [("role", Json.str "user"), ("content", Json.str "")]]))
    ∧ (Json.obj [("role", Json.str "user"), ("content", Json.str "")]
        ∈ [Json.obj [("role", Json.str "user"), ("content", Json.str "")]])
    ∧ (List.lookup "content" [("role", Json.str "user"), ("content", Json.str "")]
        = some (Json.str ""))
    ∧ (parseContent (Json.str "") = Except.error "too_small"
       ∧ (∀ m, parseChatMessage (Json.obj [("role", Json.str "user"), ("content", Json.str "")])
            ≠ Except.ok m)
       ∧ (∃ e, messageSchemaParse
            (Json.obj [("messages",
              Json.arr [Json.obj [("role", Json.str "user"), ("content", Json.str "")]])])
            = Except.error e)
       ∧ (POST [] 0 (some (Json.obj [("messages",
            Json.arr [Json.obj [("role", Json.str "user"), ("content", Json.str "")]])]))).1
           = ⟨400, RespBody.errObj "Invalid request format" true⟩) :=
  ⟨by decide, rfl, List.mem_singleton_self _, rfl,
   empty_content_rejected [] 0
     [("messages", Json.arr [Json.obj [("role", Json.str "user"), ("content", Json.str "")]])]
     [Json.obj [("role", Json.str "user"), ("content", Json.str "")]]
     (Json.obj [("role", Json.str "user"), ("content", Json.str "")])
     [("role", Json.str "user"), ("content", Json.str "")]
     (by decide) rfl (List.mem_singleton_self _) rfl rfl⟩
